import Mathlib

/-!
Verification of the Jackett indexer-configuration plugin
(`plugins.v2/jackett/__init__.py`).

The development shallowly embeds the plugin's logic:

* `Json` with `serJ` models the values handled by Python's `json` module and
  the exact output of `json.dumps(..., ensure_ascii=False, indent=None)`
  (items separated by a comma and a space, keys by a colon and a space,
  backslash/quote/control-character escaping as in `json.encoder`).
* `parseVal`/`jsonParse` is a JSON parser for the grammar the plugin emits,
  used to state the decode-reproduces-the-object properties.
* `utf8EncChar`/`utf8Dec` model `str.encode('utf-8')` and decoding.
* `b64Enc`/`b64Dec` model `base64.b64encode`/`b64decode`.
* `fetch_jackett_indexers` models `_fetch_jackett_indexers`: the network is an
  oracle assigning an `Outcome` to each attempt of the indexer-list GET, and
  the function also returns the list of network requests it issues.
* `format_indexer_for_moviepilot`, `log_jackett_indexer_configs` and
  `api_trigger_log_configs` model the formatter, the log-output routine and
  the manual-trigger API endpoint; exceptions that the Python code would let
  escape are modelled with `Except`.
-/

/-! ### JSON values -/

/-- A JSON value as produced by the plugin (strings, naturals, booleans,
arrays, objects; object fields keep insertion order, as Python dicts do). -/
inductive Json where
  | str (s : String)
  | num (n : Nat)
  | bool (b : Bool)
  | arr (items : List Json)
  | obj (fields : List (String × Json))

/-- Python truthiness (`bool(x)`) of a parsed-JSON value: empty strings,
zero, `False`, empty lists and empty dicts are falsy. -/
def pyTruthy : Json → Bool
  | .str s => !(s == "")
  | .num n => !(n == 0)
  | .bool b => b
  | .arr items => !items.isEmpty
  | .obj fields => !fields.isEmpty

/-- `d.get(k, default)`-style lookup on an object's field list; a duplicated
key resolves to its last occurrence, as in a Python dict built from JSON. -/
def pyLookup (fields : List (String × Json)) (k : String) : Option Json :=
  fields.foldl (fun acc kv => if kv.1 = k then some kv.2 else acc) none

/-- `d.get(k, dflt)` on an object's field list. -/
def pyDictGet (fields : List (String × Json)) (k : String) (dflt : Json) : Json :=
  (pyLookup fields k).getD dflt

/-! ### The serializer: `json.dumps(obj, ensure_ascii=False, indent=None)` -/

/-- Lower-case hexadecimal digit character. -/
def hexc (n : Nat) : Char := "0123456789abcdef".data.getD n '0'

/-- Decimal digit character. -/
def digitc (n : Nat) : Char := "0123456789".data.getD n '0'

/-- How `json.dumps` writes one character of a string (`ensure_ascii=False`):
quote and backslash get two-character escapes, so do the five named control
characters, the remaining control characters become `\u00XX`, and everything
else is written as itself. -/
def escChar (c : Char) : List Char :=
  if c = '"' then ['\\', '"']
  else if c = '\\' then ['\\', '\\']
  else if c = '\x08' then ['\\', 'b']
  else if c = '\x0c' then ['\\', 'f']
  else if c = '\n' then ['\\', 'n']
  else if c = '\r' then ['\\', 'r']
  else if c = '\t' then ['\\', 't']
  else if c.toNat < 0x20 then ['\\', 'u', '0', '0', hexc (c.toNat / 16), hexc (c.toNat % 16)]
  else [c]

/-- The escaped body of a serialized string. -/
def escString (s : String) : List Char := (s.data.map escChar).flatten

/-- A serialized JSON string: the escaped body in double quotes. -/
def serStr (s : String) : List Char := '"' :: (escString s ++ ['"'])

/-- Decimal digit characters of `n`, most significant first (`str(n)`). -/
def natChars (n : Nat) : List Char :=
  if n = 0 then ['0'] else ((Nat.digits 10 n).map digitc).reverse

mutual

/-- Characters of `json.dumps(j, ensure_ascii=False, indent=None)`: default
separators, i.e. a comma and a space between items and a colon and a space
after each key. -/
def serJ : Json → List Char
  | .str s => serStr s
  | .num n => natChars n
  | .bool true => ['t', 'r', 'u', 'e']
  | .bool false => ['f', 'a', 'l', 's', 'e']
  | .arr [] => ['[', ']']
  | .arr (x :: xs) => '[' :: (serJ x ++ serMoreItems xs ++ [']'])
  | .obj [] => ['\x7b', '\x7d']
  | .obj (f :: fs) => '\x7b' :: (serField f ++ serMoreFields fs ++ ['\x7d'])

/-- Remaining array items, each preceded by `", "`. -/
def serMoreItems : List Json → List Char
  | [] => []
  | x :: xs => ',' :: ' ' :: (serJ x ++ serMoreItems xs)

/-- One object field: serialized key, `": "`, serialized value. -/
def serField : String × Json → List Char
  | (k, v) => serStr k ++ ':' :: ' ' :: serJ v

/-- Remaining object fields, each preceded by `", "`. -/
def serMoreFields : List (String × Json) → List Char
  | [] => []
  | f :: fs => ',' :: ' ' :: (serField f ++ serMoreFields fs)

end

/-- `json.dumps(j, ensure_ascii=False, indent=None)` as a string. -/
def jsonDumps (j : Json) : String := ⟨serJ j⟩

/-! ### Python string helpers used by the plugin -/

/-- `s.lower()`, modelled character-wise with `Char.toLower`.  `Char.toLower`
agrees with Python's `str.lower()` exactly on the ASCII characters
(`'A'`–`'Z'` map to `'a'`–`'z'`, every other ASCII character is fixed) and is
the identity on everything else, whereas Python also folds non-ASCII letters
(`'Ä'` to `'ä'`, etc.).  Theorems that quantify over source ids therefore
restrict their ids to ASCII, the domain on which this model is exact. -/
def pyLower (s : String) : String := ⟨s.data.map Char.toLower⟩

/-- `s.replace('-', '_')`. -/
def pyDashToUnderscore (s : String) : String :=
  ⟨s.data.map (fun c => if c = '-' then '_' else c)⟩

/-- `s.rstrip('/')`: remove every trailing slash. -/
def pyRstripSlash (s : String) : String :=
  ⟨(s.data.reverse.dropWhile (fun c => c == '/')).reverse⟩

mutual

/-- Python `repr` of a parsed-JSON value, as far as the plugin can observe it
(string quoting simplified to plain single quotes). -/
def pyRepr : Json → String
  | .str s => "'" ++ s ++ "'"
  | .num n => toString n
  | .bool true => "True"
  | .bool false => "False"
  | .arr items => "[" ++ pyReprItems items ++ "]"
  | .obj fields => "\x7b" ++ pyReprFields fields ++ "\x7d"

/-- Comma-separated `repr`s of list elements. -/
def pyReprItems : List Json → String
  | [] => ""
  | [x] => pyRepr x
  | x :: xs => pyRepr x ++ ", " ++ pyReprItems xs

/-- Comma-separated `repr`s of dict entries. -/
def pyReprFields : List (String × Json) → String
  | [] => ""
  | [(k, v)] => "'" ++ k ++ "': " ++ pyRepr v
  | (k, v) :: fs => "'" ++ k ++ "': " ++ pyRepr v ++ ", " ++ pyReprFields fs

end

/-- Python `str()` of a parsed-JSON value (what an f-string interpolates). -/
def pyStr : Json → String
  | .str s => s
  | j => pyRepr j

/-! ### The fetch client (`_fetch_jackett_indexers`) -/

/-- What one attempt of the indexer-list GET observes: a timeout
(`requests.exceptions.Timeout`), another request-level exception
(`requests.exceptions.RequestException`), any other exception, or a response
with a status code, a flag for whether the `Content-Type` header contains
`application/json`, and (read only on a JSON 200) the body's parse result,
`none` when `response.json()` raises. -/
inductive Outcome where
  | timeout
  | netExc
  | otherExc
  | resp (status : Nat) (ctJson : Bool) (body : Option Json)

/-- One iteration of the attempt loop (source lines 109–141): `some r` means
the function returns `r` from inside the loop; `none` means the iteration
falls through to the retry logic. A 200 with JSON content type returns the
parsed list (or `[]` when the parse is empty or not a list) and a parse
failure raises into the `except` clauses, which all fall through; 302 and
every status other than 200/401/403 fall through; 401 and 403 return `[]`. -/
def attemptResult : Outcome → Option (List Json)
  | .timeout => none
  | .netExc => none
  | .otherExc => none
  | .resp status ctJson body =>
    if status = 200 then
      if ctJson then
        match body with
        | some (Json.arr items) => some items
        | some _ => some []
        | none => none
      else none
    else if status = 302 then none
    else if status = 401 ∨ status = 403 then some []
    else none

/-- `max_retries = 2` (source line 61): the maximum number of attempts. -/
def max_retries : Nat := 2

/-- The `while current_try <= max_retries` loop, driven by the oracle: returns
the fetched list together with how many attempts were performed. `fuel` is the
number of attempts still allowed (`max_retries - current_try + 1`). -/
def retryLoop (oracle : Nat → Outcome) : Nat → Nat → List Json × Nat
  | _, 0 => ([], 0)
  | cur, fuel + 1 =>
    match attemptResult (oracle cur) with
    | some r => (r, 1)
    | none =>
      let p := retryLoop oracle (cur + 1) fuel
      (p.1, p.2 + 1)

/-- The plugin's configuration state (`_enabled`, `_host`, `_api_key`,
`_password`); `none` models an unset (`None`) field. -/
structure PluginConfig where
  enabled : Bool
  host : Option String
  api_key : Option String
  password : Option String

/-- Python falsiness of an optional string field: `None` or the empty string. -/
def optFalsy : Option String → Bool
  | none => true
  | some s => s == ""

/-- A network request the fetch client can issue: the login-page GET and the
password POST (when a password is configured), the warm-up GET (when not), and
the numbered attempts of the indexer-list GET. -/
inductive NetRequest where
  | loginPageGet
  | loginPost
  | warmupGet
  | indexerListGet (attempt : Nat)

/-- `_fetch_jackett_indexers` (source lines 53–147): returns `[]` at once when
host or API key is falsy; otherwise issues the session-priming requests and
then the attempt loop. The second component lists every network request
issued, in order. -/
def fetch_jackett_indexers (cfg : PluginConfig) (oracle : Nat → Outcome) :
    List Json × List NetRequest :=
  if optFalsy cfg.host || optFalsy cfg.api_key then ([], [])
  else
    let prelim := if optFalsy cfg.password then [NetRequest.warmupGet]
                  else [NetRequest.loginPageGet, NetRequest.loginPost]
    let p := retryLoop oracle 1 max_retries
    (p.1, prelim ++ (List.range p.2).map (fun k => NetRequest.indexerListGet (k + 1)))

/-- The list returned by a fetch invocation. -/
def fetchResult (cfg : PluginConfig) (oracle : Nat → Outcome) : List Json :=
  (fetch_jackett_indexers cfg oracle).1

/-- The network requests issued by a fetch invocation. -/
def fetchRequests (cfg : PluginConfig) (oracle : Nat → Outcome) : List NetRequest :=
  (fetch_jackett_indexers cfg oracle).2

/-- Whether a request is an attempt of the indexer-list GET. -/
def isListGet : NetRequest → Bool
  | .indexerListGet _ => true
  | _ => false

/-- How many attempts of the indexer-list GET a fetch invocation performs. -/
def listGetCount (cfg : PluginConfig) (oracle : Nat → Outcome) : Nat :=
  (fetchRequests cfg oracle).countP isListGet

/-! ### Base64 (`base64.b64encode` / `base64.b64decode`) -/

/-- The standard base64 alphabet. -/
def b64Alphabet : List Char :=
  "ABCDEFGHIJKLMNOPQRSTUVWXYZabcdefghijklmnopqrstuvwxyz0123456789+/".data

/-- The alphabet character of a 6-bit value. -/
def b64c (n : Nat) : Char := b64Alphabet.getD n '?'

/-- The 6-bit value of an alphabet character. -/
def b64v (c : Char) : Option Nat := b64Alphabet.indexOf? c

/-- `base64.b64encode` on a byte list: three bytes become four alphabet
characters; a final group of one or two bytes is padded with `=`. -/
def b64Enc : List Nat → List Char
  | [] => []
  | [a] => [b64c (a / 4), b64c (a % 4 * 16), '=', '=']
  | [a, b] => [b64c (a / 4), b64c (a % 4 * 16 + b / 16), b64c (b % 16 * 4), '=']
  | a :: b :: d :: rest =>
    b64c (a / 4) :: b64c (a % 4 * 16 + b / 16) :: b64c (b % 16 * 4 + d / 64) :: b64c (d % 64)
      :: b64Enc rest

/-- `base64.b64decode` on a character list (strict groups of four, `=` padding
only at the end), returning the byte list or `none` for malformed input. -/
def b64Dec : List Char → Option (List Nat)
  | [] => some []
  | c1 :: c2 :: c3 :: c4 :: rest =>
    (b64v c1).bind fun v1 =>
      (b64v c2).bind fun v2 =>
        if c3 = '=' then
          if c4 = '=' ∧ rest = [] then some [v1 * 4 + v2 / 16] else none
        else
          (b64v c3).bind fun v3 =>
            if c4 = '=' then
              if rest = [] then some [v1 * 4 + v2 / 16, v2 % 16 * 16 + v3 / 4] else none
            else
              (b64v c4).bind fun v4 =>
                (b64Dec rest).map (fun bs =>
                  (v1 * 4 + v2 / 16) :: (v2 % 16 * 16 + v3 / 4) :: (v3 % 4 * 64 + v4) :: bs)
  | _ => none

/-! ### UTF-8 (`str.encode('utf-8')` and the reverse) -/

/-- The UTF-8 bytes of one character (1 to 4 bytes by code-point range). -/
def utf8EncChar (c : Char) : List Nat :=
  if c.toNat < 0x80 then [c.toNat]
  else if c.toNat < 0x800 then [0xC0 + c.toNat / 64, 0x80 + c.toNat % 64]
  else if c.toNat < 0x10000 then
    [0xE0 + c.toNat / 4096, 0x80 + c.toNat / 64 % 64, 0x80 + c.toNat % 64]
  else
    [0xF0 + c.toNat / 262144, 0x80 + c.toNat / 4096 % 64, 0x80 + c.toNat / 64 % 64,
     0x80 + c.toNat % 64]

/-- `s.encode('utf-8')` as a byte list. -/
def utf8Enc (s : String) : List Nat := (s.data.map utf8EncChar).flatten

mutual

/-- Decode UTF-8 bytes back into characters (`bytes.decode('utf-8')`),
returning `none` on malformed input. -/
def utf8Dec : List Nat → Option (List Char)
  | [] => some []
  | b0 :: rest =>
    if b0 < 0x80 then (utf8Dec rest).map (Char.ofNat b0 :: ·)
    else if 0xC0 ≤ b0 ∧ b0 < 0xE0 then utf8Dec2 b0 rest
    else if 0xE0 ≤ b0 ∧ b0 < 0xF0 then utf8Dec3 b0 rest
    else if 0xF0 ≤ b0 ∧ b0 < 0xF8 then utf8Dec4 b0 rest
    else none

/-- Decode the continuation byte of a two-byte sequence. -/
def utf8Dec2 (b0 : Nat) : List Nat → Option (List Char)
  | b1 :: rest1 =>
    if 0x80 ≤ b1 ∧ b1 < 0xC0 then
      (utf8Dec rest1).map (Char.ofNat ((b0 - 0xC0) * 64 + (b1 - 0x80)) :: ·)
    else none
  | [] => none

/-- Decode the continuation bytes of a three-byte sequence. -/
def utf8Dec3 (b0 : Nat) : List Nat → Option (List Char)
  | b1 :: b2 :: rest2 =>
    if (0x80 ≤ b1 ∧ b1 < 0xC0) ∧ (0x80 ≤ b2 ∧ b2 < 0xC0) then
      (utf8Dec rest2).map
        (Char.ofNat (((b0 - 0xE0) * 64 + (b1 - 0x80)) * 64 + (b2 - 0x80)) :: ·)
    else none
  | _ => none

/-- Decode the continuation bytes of a four-byte sequence. -/
def utf8Dec4 (b0 : Nat) : List Nat → Option (List Char)
  | b1 :: b2 :: b3 :: rest3 =>
    if (0x80 ≤ b1 ∧ b1 < 0xC0) ∧ (0x80 ≤ b2 ∧ b2 < 0xC0) ∧ (0x80 ≤ b3 ∧ b3 < 0xC0) then
      (utf8Dec rest3).map
        (Char.ofNat ((((b0 - 0xF0) * 64 + (b1 - 0x80)) * 64 + (b2 - 0x80)) * 64 + (b3 - 0x80))
          :: ·)
    else none
  | _ => none

end

/-! ### The record formatter (`_format_indexer_for_moviepilot`) -/

/-- The MoviePilot-internal identifier (source line 407):
`f"jackett_{indexer_id.lower().replace('-', '_')}"`. -/
def mpInternalId (jackettId : String) : String :=
  "jackett_" ++ pyDashToUnderscore (pyLower jackettId)

/-- One category entry `{"id": ..., "desc": ...}`. -/
def catEntry (i d : String) : Json := .obj [("id", .str i), ("desc", .str d)]

/-- The static `category` object (source lines 409–412). -/
def mpCategories : Json :=
  .obj
    [("movie", .arr
        [catEntry "2000" "Movies", catEntry "2010" "Movies/Foreign",
         catEntry "2020" "Movies/BluRay", catEntry "2030" "Movies/DVD",
         catEntry "2040" "Movies/HD", catEntry "2045" "Movies/UHD",
         catEntry "2050" "Movies/3D", catEntry "2060" "Movies/SD"]),
     ("tv", .arr
        [catEntry "5000" "TV", catEntry "5020" "TV/Blu-ray",
         catEntry "5030" "TV/DVD", catEntry "5040" "TV/HD",
         catEntry "5050" "TV/SD", catEntry "5060" "TV/Foreign",
         catEntry "5070" "TV/Sport"])]

/-- A torrent-field rule `{"selector": ...}`. -/
def selRule (s : String) : Json := .obj [("selector", .str s)]

/-- A seeders/leechers rule with the regex filter and default. -/
def countRule (sel : String) : Json :=
  .obj
    [("selector", .str sel),
     ("filters", .arr [.obj [("name", .str "re"), ("args", .arr [.str "(\\d+)", .num 1])]]),
     ("default", .str "0")]

/-- The static `torrents` parsing rules (source lines 448–458). -/
def mpTorrents : Json :=
  .obj
    [("list", selRule "item"),
     ("fields", .obj
        [("title", selRule "title"), ("details", selRule "guid"),
         ("download", selRule "link"), ("size", selRule "size"),
         ("date_added", .obj [("selector", .str "pubDate"), ("optional", .bool true)]),
         ("seeders", countRule "torznab:attr[name=seeders]"),
         ("leechers", countRule "torznab:attr[name=peers]"),
         ("downloadvolumefactor", .obj [("case", .obj [("*", .num 0)])]),
         ("uploadvolumefactor", .obj [("case", .obj [("*", .num 1)])])])]

/-- The JSON object `mp_indexer_config_json` (source lines 417–459) built for
one indexer, with the configured host and API key and the record's id and
name. -/
def mpIndexerConfig (host api_key jackettId jackettName : String) : Json :=
  .obj
    [("id", .str (mpInternalId jackettId)),
     ("name", .str ("[Jackett] " ++ jackettName)),
     ("domain", .str (pyRstripSlash host)),
     ("url", .str (pyRstripSlash host)),
     ("encoding", .str "UTF-8"),
     ("public", .bool true),
     ("proxy", .bool true),
     ("language", .str "zh_CN"),
     ("category", mpCategories),
     ("search", .obj
        [("paths", .arr
            [.obj
               [("path", .str ("/api/v2.0/indexers/" ++ jackettId ++ "/results/torznab")),
                ("method", .str "get")]]),
         ("params", .obj
            [("t", .str "search"), ("q", .str "\x7bkeyword\x7d"),
             ("cat", .str "\x7bcat\x7d"), ("apikey", .str api_key)])]),
     ("torrents", mpTorrents)]

/-- `_format_indexer_for_moviepilot` (source lines 398–464) on one record's
field list: `rec.get("id", "")` and `rec.get("name", "")` must both be truthy
or the formatter returns `None`; a truthy non-string id makes `.lower()`
raise, which the surrounding `except` turns into `None` as well. -/
def format_indexer_for_moviepilot (host api_key : String) (rec : List (String × Json)) :
    Option Json :=
  let idv := pyDictGet rec "id" (.str "")
  let namev := pyDictGet rec "name" (.str "")
  if !pyTruthy idv || !pyTruthy namev then none
  else
    match idv with
    | .str i => some (mpIndexerConfig host api_key i (pyStr namev))
    | _ => none

/-! ### Config-line building and the trigger endpoint -/

/-- Look up a key on a JSON object value (`obj[k]`; `none` models the
`KeyError`/`TypeError` path). -/
def jGet (j : Json) (k : String) : Option Json :=
  match j with
  | .obj fields => pyLookup fields k
  | _ => none

/-- The `"{id}|{base64}"` line built from one formatted config object
(source lines 489–494): the part before the separator is the object's `id`
value, the part after it the base64 of the UTF-8 bytes of the compact JSON.
`none` models the per-record `except` path (a config without `id`). -/
def config_line (cfgObj : Json) : Option String :=
  match jGet cfgObj "id" with
  | some v => some (pyStr v ++ "|" ++ ⟨b64Enc (utf8Enc (jsonDumps cfgObj))⟩)
  | none => none

/-- The per-record loop of `log_jackett_indexer_configs` (source lines
479–501). A fetched record that is not a JSON object makes
`raw_indexer.get("name", "N/A")` (line 480, outside any `try`) raise
`AttributeError`, modelled as `Except.error`; records the formatter or the
line builder rejects are skipped. -/
def process_records (host api_key : String) : List Json → Except Unit (List String)
  | [] => Except.ok []
  | r :: rs =>
    match r with
    | .obj fields =>
      match format_indexer_for_moviepilot host api_key fields with
      | some cfgObj =>
        match config_line cfgObj with
        | some line => (process_records host api_key rs).map (line :: ·)
        | none => process_records host api_key rs
      | none => process_records host api_key rs
    | _ => Except.error ()

/-- `log_jackett_indexer_configs` (source lines 466–512): fetch, return
early when the fetch came back empty, otherwise format each record and
collect the emitted config lines. -/
def log_jackett_indexer_configs (cfg : PluginConfig) (oracle : Nat → Outcome) :
    Except Unit (List String) :=
  let fetched := fetchResult cfg oracle
  if fetched.isEmpty then Except.ok []
  else process_records (cfg.host.getD "") (cfg.api_key.getD "") fetched

/-- `api_trigger_log_configs` (source lines 604–614): the `{code, message}`
result of the manual-trigger endpoint; an exception escaping
`log_jackett_indexer_configs` propagates to the caller as `Except.error`. -/
def api_trigger_log_configs (cfg : PluginConfig) (oracle : Nat → Outcome) :
    Except Unit (Nat × String) :=
  if !cfg.enabled then Except.ok (1, "插件未启用，请先在设置中启用。")
  else if optFalsy cfg.host || optFalsy cfg.api_key then
    Except.ok (1, "Jackett Host或API Key未配置，请在插件设置中配置。")
  else
    match log_jackett_indexer_configs cfg oracle with
    | Except.ok _ => Except.ok (0, "已尝试记录Jackett索引器配置到MoviePilot日志，请查看日志获取结果。")
    | Except.error e => Except.error e

/-! ### A JSON parser for the emitted grammar -/

/-- JSON whitespace. -/
def isWsc (c : Char) : Bool := c == ' ' || c == '\t' || c == '\n' || c == '\r'

/-- Decimal digit character test. -/
def isDigitc (c : Char) : Bool := 48 ≤ c.toNat && c.toNat ≤ 57

/-- Skip leading whitespace. -/
def dropWs (cs : List Char) : List Char := cs.dropWhile isWsc

/-- Numeric value of a digit character. -/
def digitVal (c : Char) : Nat := c.toNat - 48

/-- Numeric value of a hexadecimal digit character, if it is one. -/
def hexv (c : Char) : Option Nat :=
  if '0' ≤ c && c ≤ '9' then some (c.toNat - 48)
  else if 'a' ≤ c && c ≤ 'f' then some (c.toNat - 97 + 10)
  else if 'A' ≤ c && c ≤ 'F' then some (c.toNat - 65 + 10)
  else none

/-- The value of a most-significant-first digit-character run. -/
def digitsVal (run : List Char) : Nat :=
  run.foldl (fun a c => a * 10 + digitVal c) 0

/-- Undo a two-character escape. -/
def unescC : Char → Option Char
  | '"' => some '"'
  | '\\' => some '\\'
  | '/' => some '/'
  | 'b' => some '\x08'
  | 'f' => some '\x0c'
  | 'n' => some '\n'
  | 'r' => some '\r'
  | 't' => some '\t'
  | _ => none

/-- Parse a string body up to the closing quote, unescaping as it goes. -/
def parseQStringAux (acc : List Char) : List Char → Option (String × List Char)
  | '"' :: r => some (⟨acc.reverse⟩, r)
  | '\\' :: 'u' :: h1 :: h2 :: h3 :: h4 :: r =>
    match hexv h1, hexv h2, hexv h3, hexv h4 with
    | some v1, some v2, some v3, some v4 =>
      parseQStringAux (Char.ofNat (((v1 * 16 + v2) * 16 + v3) * 16 + v4) :: acc) r
    | _, _, _, _ => none
  | '\\' :: e :: r =>
    match unescC e with
    | some ch => parseQStringAux (ch :: acc) r
    | none => none
  | c :: r => parseQStringAux (c :: acc) r
  | [] => none

/-- Parse a string body after its opening quote. -/
def parseQString (cs : List Char) : Option (String × List Char) := parseQStringAux [] cs

mutual

/-- Parse one JSON value of the grammar the plugin emits (strings, naturals,
booleans, arrays, objects), tolerating whitespace where JSON allows it. `fuel`
only bounds the recursion; `jsonParse` supplies enough for any input. -/
def parseVal : Nat → List Char → Option (Json × List Char)
  | 0, _ => none
  | fuel + 1, cs =>
    match dropWs cs with
    | 't' :: 'r' :: 'u' :: 'e' :: r => some (.bool true, r)
    | 'f' :: 'a' :: 'l' :: 's' :: 'e' :: r => some (.bool false, r)
    | '"' :: r => (parseQString r).map (fun p => (.str p.1, p.2))
    | '[' :: r =>
      if (dropWs r).head? = some ']' then some (.arr [], (dropWs r).tail)
      else (parseItems fuel (dropWs r)).map (fun p => (.arr p.1, p.2))
    | '\x7b' :: r =>
      if (dropWs r).head? = some '\x7d' then some (.obj [], (dropWs r).tail)
      else (parseFields fuel (dropWs r)).map (fun p => (.obj p.1, p.2))
    | c :: r =>
      if isDigitc c then
        some (.num (digitsVal ((c :: r).takeWhile isDigitc)), (c :: r).dropWhile isDigitc)
      else none
    | [] => none

/-- Parse the non-empty item list of an array, through the closing bracket. -/
def parseItems : Nat → List Char → Option (List Json × List Char)
  | 0, _ => none
  | fuel + 1, cs =>
    match parseVal fuel cs with
    | none => none
    | some (v, r) =>
      if (dropWs r).head? = some ',' then
        (parseItems fuel (dropWs r).tail).map (fun p => (v :: p.1, p.2))
      else if (dropWs r).head? = some ']' then some ([v], (dropWs r).tail)
      else none

/-- Parse the non-empty field list of an object, through the closing brace. -/
def parseFields : Nat → List Char → Option (List (String × Json) × List Char)
  | 0, _ => none
  | fuel + 1, cs =>
    if (dropWs cs).head? = some '"' then
      match parseQString (dropWs cs).tail with
      | none => none
      | some (k, r1) =>
        if (dropWs r1).head? = some ':' then
          match parseVal fuel (dropWs r1).tail with
          | none => none
          | some (v, r3) =>
            if (dropWs r3).head? = some ',' then
              (parseFields fuel (dropWs r3).tail).map (fun p => ((k, v) :: p.1, p.2))
            else if (dropWs r3).head? = some '\x7d' then some ([(k, v)], (dropWs r3).tail)
            else none
        else none
    else none

end

/-- `json.loads` for the emitted grammar: parse one value and require only
whitespace after it. -/
def jsonParse (s : String) : Option Json :=
  match parseVal (s.data.length + 1) s.data with
  | some (j, r) => if (dropWs r).isEmpty then some j else none
  | none => none

/-! ### Lemmas about the attempt loop -/

theorem retryLoop_terminal (oracle : Nat → Outcome) (cur fuel : Nat) (r : List Json)
    (h : attemptResult (oracle cur) = some r) :
    retryLoop oracle cur (fuel + 1) = (r, 1) := by
  simp [retryLoop, h]

theorem retryLoop_all_none (oracle : Nat → Outcome)
    (h : ∀ i, attemptResult (oracle i) = none) :
    ∀ (fuel cur : Nat), retryLoop oracle cur fuel = ([], fuel)
  | 0, _ => rfl
  | fuel + 1, cur => by
    simp [retryLoop, h cur, retryLoop_all_none oracle h fuel (cur + 1)]

theorem retryLoop_count_iff (oracle : Nat → Outcome) :
    ∀ (fuel cur k : Nat),
      k + 1 ≤ (retryLoop oracle cur fuel).2 ↔
        (k + 1 ≤ fuel ∧ ∀ j, j < k → attemptResult (oracle (cur + j)) = none) := by
  intro fuel
  induction fuel with
  | zero =>
    intro cur k
    constructor
    · intro h; simp [retryLoop] at h
    · intro h; exact absurd h.1 (by omega)
  | succ fuel ih =>
    intro cur k
    cases hA : attemptResult (oracle cur) with
    | some r =>
      rw [retryLoop_terminal oracle cur fuel r hA]
      constructor
      · intro h
        have hk : k = 0 := by simpa using h
        subst hk
        exact ⟨by omega, fun j hj => absurd hj (by omega)⟩
      · rintro ⟨_, h2⟩
        by_contra hc
        have hk : 1 ≤ k := by omega
        have h0 : attemptResult (oracle (cur + 0)) = none := h2 0 (by omega)
        rw [Nat.add_zero, hA] at h0
        exact Option.noConfusion h0
    | none =>
      have hstep : retryLoop oracle cur (fuel + 1)
          = ((retryLoop oracle (cur + 1) fuel).1, (retryLoop oracle (cur + 1) fuel).2 + 1) := by
        simp [retryLoop, hA]
      rw [hstep]
      cases k with
      | zero =>
        constructor
        · intro _; exact ⟨by omega, fun j hj => absurd hj (by omega)⟩
        · intro _; simp
      | succ k =>
        have ihh := ih (cur + 1) k
        constructor
        · intro h
          obtain ⟨hf, hall⟩ := ihh.mp (by simpa using h)
          refine ⟨by omega, ?_⟩
          intro j hj
          cases j with
          | zero => simpa using hA
          | succ j =>
            have hx := hall j (by omega)
            have e : cur + 1 + j = cur + (j + 1) := by omega
            rwa [e] at hx
        · rintro ⟨hf, hall⟩
          have h' : k + 1 ≤ (retryLoop oracle (cur + 1) fuel).2 := by
            refine ihh.mpr ⟨by omega, ?_⟩
            intro j hj
            have hx := hall (j + 1) (by omega)
            have e : cur + (j + 1) = cur + 1 + j := by omega
            rwa [e] at hx
          simpa using Nat.add_le_add_right h' 1

theorem fetch_valid_eq (cfg : PluginConfig) (oracle : Nat → Outcome)
    (hh : optFalsy cfg.host = false) (hk : optFalsy cfg.api_key = false) :
    fetchResult cfg oracle = (retryLoop oracle 1 max_retries).1 ∧
    listGetCount cfg oracle = (retryLoop oracle 1 max_retries).2 := by
  unfold fetchResult listGetCount fetchRequests fetch_jackett_indexers
  rw [hh, hk]
  refine ⟨rfl, ?_⟩
  show List.countP isListGet
      ((if optFalsy cfg.password = true then [NetRequest.warmupGet]
        else [NetRequest.loginPageGet, NetRequest.loginPost]) ++
        List.map (fun k => NetRequest.indexerListGet (k + 1))
          (List.range (retryLoop oracle 1 max_retries).2)) = (retryLoop oracle 1 max_retries).2
  rw [List.countP_append, List.countP_map]
  have h0 : List.countP isListGet
      (if optFalsy cfg.password = true then [NetRequest.warmupGet]
       else [NetRequest.loginPageGet, NetRequest.loginPost]) = 0 := by
    cases hp : optFalsy cfg.password <;> simp [hp, isListGet, List.countP_cons]
  rw [h0]
  have h1 : (isListGet ∘ fun k => NetRequest.indexerListGet (k + 1)) = fun _ => true := by
    funext k; rfl
  rw [h1, List.countP_true, List.length_range]
  omega

/-! ### The claims about the fetch client -/

/-- The retry triggers the specification lists for claim C1: a request
timeout, a network-level exception, or a 200 response whose content type is
not JSON. -/
def retryTriggerSpec : Outcome → Bool
  | .timeout => true
  | .netExc => true
  | .resp 200 false _ => true
  | _ => false

/-- A valid configuration used by the concrete runs below. -/
def cfgOk : PluginConfig :=
  ⟨true, some "http://localhost:9117", some "ABC123", none⟩

/-- An oracle whose first attempt sees HTTP 500 and whose later attempts
succeed with a JSON list. -/
def oracle500 : Nat → Outcome := fun i =>
  if i = 1 then Outcome.resp 500 false none
  else Outcome.resp 200 true (some (Json.arr [Json.str "x"]))

/-- Claim C1 (counterexample): it is not true that a further attempt of the
indexer-list GET happens only after a timeout, a network-level exception or a
200 with non-JSON content type: an HTTP 500 on the first attempt (which is
none of those) is followed by a second attempt. -/
theorem c1_counterexample :
    ¬ (∀ (cfg : PluginConfig) (oracle : Nat → Outcome) (i : Nat),
        optFalsy cfg.host = false → optFalsy cfg.api_key = false →
        1 ≤ i → i + 1 ≤ listGetCount cfg oracle →
        retryTriggerSpec (oracle i) = true) := by
  intro h
  have hcnt : listGetCount cfgOk oracle500 = 2 := rfl
  have hx := h cfgOk oracle500 1 rfl rfl (by omega) (by rw [hcnt])
  rw [show oracle500 1 = Outcome.resp 500 false none from rfl] at hx
  exact absurd hx (by decide)

theorem attemptResult_eq_none_iff (o : Outcome) :
    attemptResult o = none ↔
      ∀ s ct b, o = Outcome.resp s ct b →
        s ≠ 401 ∧ s ≠ 403 ∧ (s = 200 → ct = true → b = none) := by
  cases o with
  | timeout => simp [attemptResult]
  | netExc => simp [attemptResult]
  | otherExc => simp [attemptResult]
  | resp s ct b =>
    constructor
    · intro h s' ct' b' he
      injection he with e1 e2 e3
      subst e1; subst e2; subst e3
      by_cases hs : s = 200
      · subst hs
        cases ct with
        | false => exact ⟨by omega, by omega, fun _ hct => absurd hct (by simp)⟩
        | true =>
          refine ⟨by omega, by omega, fun _ _ => ?_⟩
          cases b with
          | none => rfl
          | some j => cases j <;> simp [attemptResult] at h
      · by_cases h302 : s = 302
        · subst h302; exact ⟨by omega, by omega, fun h' => absurd h' (by omega)⟩
        · by_cases hauth : s = 401 ∨ s = 403
          · simp [attemptResult, hs, h302, hauth] at h
          · push_neg at hauth
            exact ⟨hauth.1, hauth.2, fun h' => absurd h' hs⟩
    · intro hall
      obtain ⟨h401, h403, h200⟩ := hall s ct b rfl
      by_cases hs : s = 200
      · subst hs
        cases ct with
        | false => simp [attemptResult]
        | true => rw [h200 rfl rfl]; simp [attemptResult]
      · by_cases h302 : s = 302
        · subst h302; simp [attemptResult]
        · simp [attemptResult, hs, h302, h401, h403]

/-- Claim C1 (amended): when host and API key are set, attempt `i + 1` of the
indexer-list GET is performed exactly when the maximum attempt count is not
yet exhausted and every attempt up to `i` had a non-terminal outcome, where
the only terminal outcomes are HTTP 401, HTTP 403, and a 200 whose content
type is JSON and whose body parses; in particular 302, 500, every other
status, JSON parse failures and unknown errors are all retried, not only
timeouts, network-level exceptions and non-JSON 200s. -/
theorem c1_retry_policy_amended (cfg : PluginConfig) (oracle : Nat → Outcome) (i : Nat)
    (hh : optFalsy cfg.host = false) (hk : optFalsy cfg.api_key = false) (_ : 1 ≤ i) :
    i + 1 ≤ listGetCount cfg oracle ↔
      (i + 1 ≤ max_retries ∧ ∀ j, 1 ≤ j → j ≤ i →
        ∀ s ct b, oracle j = Outcome.resp s ct b →
          s ≠ 401 ∧ s ≠ 403 ∧ (s = 200 → ct = true → b = none)) := by
  obtain ⟨-, hcnt⟩ := fetch_valid_eq cfg oracle hh hk
  rw [hcnt, retryLoop_count_iff oracle max_retries 1 i]
  refine and_congr_right fun _ => ⟨?_, ?_⟩
  · intro h j h1 h2 s ct b hb
    have hx := h (j - 1) (by omega)
    have e : 1 + (j - 1) = j := by omega
    rw [e] at hx
    exact (attemptResult_eq_none_iff (oracle j)).mp hx s ct b hb
  · intro h j hj
    exact (attemptResult_eq_none_iff (oracle (1 + j))).mpr
      (fun s ct b hb => h (1 + j) (by omega) (by omega) s ct b hb)

/-- An oracle on which every attempt times out. -/
def oracleTO : Nat → Outcome := fun _ => Outcome.timeout

/-- Witness for the amended claim C1: with timeouts everywhere, a second
attempt is indeed performed. -/
theorem c1_retry_policy_amended_witness : 1 + 1 ≤ listGetCount cfgOk oracleTO :=
  (c1_retry_policy_amended cfgOk oracleTO 1 rfl rfl (by omega)).mpr
    ⟨by decide, fun _ _ _ s ct b hb => absurd hb (by simp [oracleTO])⟩

/-- An oracle whose first attempt is a 200 with JSON content type and an
unparseable body, and whose second attempt succeeds. -/
def oracleBadJson : Nat → Outcome := fun i =>
  if i = 1 then Outcome.resp 200 true none
  else Outcome.resp 200 true (some (Json.arr [Json.str "x"]))

/-- Claim C2 (counterexample): a 200 attempt with JSON content type whose
body fails to parse is not terminal: with such a first attempt the client
performs a second attempt (and can even return a non-empty list from it),
contradicting "no further attempts and returns an empty sequence". -/
theorem c2_counterexample :
    ¬ (∀ (cfg : PluginConfig) (oracle : Nat → Outcome) (i : Nat),
        optFalsy cfg.host = false → optFalsy cfg.api_key = false →
        1 ≤ i → i ≤ listGetCount cfg oracle →
        oracle i = Outcome.resp 200 true none →
        listGetCount cfg oracle = i ∧ fetchResult cfg oracle = []) := by
  intro h
  have hcnt : listGetCount cfgOk oracleBadJson = 2 := rfl
  have hx := h cfgOk oracleBadJson 1 rfl rfl (by omega) (by rw [hcnt]; omega) rfl
  rw [hcnt] at hx
  exact absurd hx.1 (by omega)

/-- Claim C2 (amended): a 200 response with JSON content type whose body
fails to parse is treated like a transient failure: the attempt falls through
to the retry logic, and only after the configured maximum number of attempts
does the client return an empty sequence. -/
theorem c2_malformed_json_retried (cfg : PluginConfig) (oracle : Nat → Outcome)
    (hh : optFalsy cfg.host = false) (hk : optFalsy cfg.api_key = false)
    (hall : ∀ i, oracle i = Outcome.resp 200 true none) :
    fetchResult cfg oracle = [] ∧ listGetCount cfg oracle = max_retries := by
  have hnone : ∀ i, attemptResult (oracle i) = none := by
    intro i; rw [hall i]; simp [attemptResult]
  obtain ⟨hres, hcnt⟩ := fetch_valid_eq cfg oracle hh hk
  rw [hres, hcnt, retryLoop_all_none oracle hnone max_retries 1]
  exact ⟨rfl, rfl⟩

/-- An oracle on which every attempt is a 200 with JSON content type and an
unparseable body. -/
def oracleAllBadJson : Nat → Outcome := fun _ => Outcome.resp 200 true none

/-- Witness for the amended claim C2. -/
theorem c2_malformed_json_retried_witness :
    fetchResult cfgOk oracleAllBadJson = [] ∧
    listGetCount cfgOk oracleAllBadJson = max_retries :=
  c2_malformed_json_retried cfgOk oracleAllBadJson rfl rfl (fun _ => rfl)

/-- Claim C3: an attempt that sees HTTP 401 or 403 terminates the loop at
once: the fetch returns an empty list after exactly one attempt of the
indexer-list GET. -/
theorem c3_auth_failure_terminal (cfg : PluginConfig) (oracle : Nat → Outcome)
    (hh : optFalsy cfg.host = false) (hk : optFalsy cfg.api_key = false)
    (s : Nat) (ct : Bool) (b : Option Json)
    (hs : s = 401 ∨ s = 403) (h1 : oracle 1 = Outcome.resp s ct b) :
    fetchResult cfg oracle = [] ∧ listGetCount cfg oracle = 1 := by
  obtain ⟨hres, hcnt⟩ := fetch_valid_eq cfg oracle hh hk
  have hA : attemptResult (oracle 1) = some [] := by
    rw [h1]; rcases hs with rfl | rfl <;> simp [attemptResult]
  rw [hres, hcnt, show max_retries = 1 + 1 from rfl, retryLoop_terminal oracle 1 1 [] hA]
  exact ⟨rfl, rfl⟩

/-- An oracle on which every attempt is an HTTP 401. -/
def oracle401 : Nat → Outcome := fun _ => Outcome.resp 401 false none

/-- Witness for claim C3. -/
theorem c3_auth_failure_terminal_witness :
    fetchResult cfgOk oracle401 = [] ∧ listGetCount cfgOk oracle401 = 1 :=
  c3_auth_failure_terminal cfgOk oracle401 rfl rfl 401 false none (Or.inl rfl) rfl

/-- Claim C4: when every attempt sees a 200 with a non-JSON content type, the
client treats each response as a failure, performs the configured maximum
number of attempts, and returns an empty sequence. -/
theorem c4_nonjson_exhausts_retries (cfg : PluginConfig) (oracle : Nat → Outcome)
    (hh : optFalsy cfg.host = false) (hk : optFalsy cfg.api_key = false)
    (hall : ∀ i, ∃ b, oracle i = Outcome.resp 200 false b) :
    fetchResult cfg oracle = [] ∧ listGetCount cfg oracle = max_retries := by
  have hnone : ∀ i, attemptResult (oracle i) = none := by
    intro i; obtain ⟨b, hb⟩ := hall i; rw [hb]; simp [attemptResult]
  obtain ⟨hres, hcnt⟩ := fetch_valid_eq cfg oracle hh hk
  rw [hres, hcnt, retryLoop_all_none oracle hnone max_retries 1]
  exact ⟨rfl, rfl⟩

/-- An oracle on which every attempt is a 200 serving HTML. -/
def oracleHtml : Nat → Outcome := fun _ =>
  Outcome.resp 200 false (some (Json.str "<html>login</html>"))

/-- Witness for claim C4. -/
theorem c4_nonjson_exhausts_retries_witness :
    fetchResult cfgOk oracleHtml = [] ∧ listGetCount cfgOk oracleHtml = max_retries :=
  c4_nonjson_exhausts_retries cfgOk oracleHtml rfl rfl
    (fun _ => ⟨some (Json.str "<html>login</html>"), rfl⟩)

/-- Claim C5: with a missing or empty host or API key, the fetch client
returns an empty sequence at once and issues no network request at all —
no login, no warm-up, no indexer-list GET. -/
theorem c5_missing_config_no_io (cfg : PluginConfig) (oracle : Nat → Outcome)
    (h : optFalsy cfg.host = true ∨ optFalsy cfg.api_key = true) :
    fetchResult cfg oracle = [] ∧ fetchRequests cfg oracle = [] := by
  unfold fetchResult fetchRequests fetch_jackett_indexers
  rcases h with h | h <;> simp [h]

/-- Witness for claim C5: host and API key both absent. -/
theorem c5_missing_config_no_io_witness :
    fetchResult ⟨true, none, none, none⟩ oracleTO = [] ∧
    fetchRequests ⟨true, none, none, none⟩ oracleTO = [] :=
  c5_missing_config_no_io ⟨true, none, none, none⟩ oracleTO (Or.inl rfl)

/-! ### The claims about the formatter and the trigger endpoint -/

theorem map_fixed_of_forall {α : Type} (f : α → α) :
    ∀ (l : List α), (∀ c ∈ l, f c = c) → l.map f = l
  | [], _ => rfl
  | c :: cs, h => by
    rw [List.map_cons, h c (by simp),
        map_fixed_of_forall f cs (fun x hx => h x (by simp [hx]))]

/-- Claim C8: a record whose `id` or `name` field is absent or empty makes
the formatter produce nothing. -/
theorem c8_rejects_missing_fields (host api_key : String) (rec : List (String × Json))
    (h : pyLookup rec "id" = none ∨ pyLookup rec "id" = some (Json.str "") ∨
         pyLookup rec "name" = none ∨ pyLookup rec "name" = some (Json.str "")) :
    format_indexer_for_moviepilot host api_key rec = none := by
  rcases h with h | h | h | h <;>
    simp [format_indexer_for_moviepilot, pyDictGet, h, pyTruthy]

/-- Witness for claim C8: `{"name": "X"}` and `{"id": "x"}` each yield
nothing. -/
theorem c8_rejects_missing_fields_witness :
    format_indexer_for_moviepilot "http://localhost:9117" "ABC123"
      [("name", Json.str "X")] = none ∧
    format_indexer_for_moviepilot "http://localhost:9117" "ABC123"
      [("id", Json.str "x")] = none :=
  ⟨c8_rejects_missing_fields _ _ _ (Or.inl rfl),
   c8_rejects_missing_fields _ _ _ (Or.inr (Or.inr (Or.inl rfl)))⟩

/-- Claim C10 (counterexample): the internal-identifier derivation is not
injective on accepted source ids: the records with ids `"A"` and `"a"` (and
any name) are both accepted, the ids differ, yet both derive
`"jackett_a"`. -/
theorem c10_counterexample :
    ¬ (∀ (host api_key id1 id2 name1 name2 : String),
        (format_indexer_for_moviepilot host api_key
          [("id", Json.str id1), ("name", Json.str name1)]).isSome = true →
        (format_indexer_for_moviepilot host api_key
          [("id", Json.str id2), ("name", Json.str name2)]).isSome = true →
        id1 ≠ id2 → mpInternalId id1 ≠ mpInternalId id2) := by
  intro h
  exact h "http://localhost:9117" "ABC123" "A" "a" "x" "x" rfl rfl (by decide) rfl

/-- Claim C10 (amended): the derivation is injective on ASCII source ids that
are unchanged by lower-casing and contain no hyphen; ids differing only by
letter case or by hyphen versus underscore collide.  The ASCII restriction is
where the modelled lower-casing is exactly Python's: Python's `str.lower()`
also folds non-ASCII letters (both `"Ä"` and `"ä"` derive `"jackett_ä"`), so
no injectivity is claimed for ids with non-ASCII characters. -/
theorem c10_injective_amended (id1 id2 : String)
    (h1 : ∀ c ∈ id1.data, c.toNat < 128 ∧ Char.toLower c = c ∧ c ≠ '-')
    (h2 : ∀ c ∈ id2.data, c.toNat < 128 ∧ Char.toLower c = c ∧ c ≠ '-')
    (hne : id1 ≠ id2) : mpInternalId id1 ≠ mpInternalId id2 := by
  have fix : ∀ (s : String),
      (∀ c ∈ s.data, c.toNat < 128 ∧ Char.toLower c = c ∧ c ≠ '-') →
      pyDashToUnderscore (pyLower s) = s := by
    intro s hs
    have e1 : s.data.map Char.toLower = s.data :=
      map_fixed_of_forall _ _ (fun c hc => (hs c hc).2.1)
    have e2 : s.data.map (fun c => if c = '-' then '_' else c) = s.data :=
      map_fixed_of_forall _ _ (fun c hc => if_neg (hs c hc).2.2)
    show (⟨(s.data.map Char.toLower).map (fun c => if c = '-' then '_' else c)⟩ : String) = s
    rw [e1, e2]
  intro hEq
  apply hne
  unfold mpInternalId at hEq
  rw [fix id1 h1, fix id2 h2] at hEq
  have hdata : ("jackett_" ++ id1).data = ("jackett_" ++ id2).data := congrArg String.data hEq
  rw [String.data_append, String.data_append] at hdata
  have hd : id1.data = id2.data := List.append_cancel_left hdata
  exact congrArg String.mk hd

/-- Witness for the amended claim C10 at two concrete ASCII ids. -/
theorem c10_injective_amended_witness : mpInternalId "abc" ≠ mpInternalId "xyz" :=
  c10_injective_amended "abc" "xyz" (by decide) (by decide) (by decide)

/-- Whether a JSON value is an object (a Python dict). -/
def isObjJ : Json → Bool
  | .obj _ => true
  | _ => false

theorem process_records_ok (host api_key : String) :
    ∀ (rs : List Json), (∀ r ∈ rs, isObjJ r = true) →
      ∃ ls, process_records host api_key rs = Except.ok ls
  | [], _ => ⟨[], rfl⟩
  | r :: rs, h => by
    obtain ⟨ls, hls⟩ := process_records_ok host api_key rs (fun x hx => h x (by simp [hx]))
    cases r with
    | obj fields =>
      cases hf : format_indexer_for_moviepilot host api_key fields with
      | none => exact ⟨ls, by simp [process_records, hf, hls]⟩
      | some cfgObj =>
        cases hc : config_line cfgObj with
        | none => exact ⟨ls, by simp [process_records, hf, hc, hls]⟩
        | some line => exact ⟨line :: ls, by simp [process_records, hf, hc, hls, Except.map]⟩
    | str s => exact absurd (h (Json.str s) (by simp)) (by simp [isObjJ])
    | num n => exact absurd (h (Json.num n) (by simp)) (by simp [isObjJ])
    | bool b => exact absurd (h (Json.bool b) (by simp)) (by simp [isObjJ])
    | arr items => exact absurd (h (Json.arr items) (by simp)) (by simp [isObjJ])

/-- An oracle whose one successful response is a JSON list whose element is
a string, not an object. -/
def oracleNonDict : Nat → Outcome := fun _ =>
  Outcome.resp 200 true (some (Json.arr [Json.str "x"]))

/-- Claim C6 (counterexample): the trigger endpoint can raise: when the
indexer-list GET returns the JSON list `["x"]`, the per-record
`raw_indexer.get("name", "N/A")` (line 480, outside any `try`) raises
`AttributeError`, which propagates to the endpoint's caller instead of a
structured `{code, message}` result. -/
theorem c6_counterexample :
    ¬ (∀ (cfg : PluginConfig) (oracle : Nat → Outcome),
        ∃ r, api_trigger_log_configs cfg oracle = Except.ok r) := by
  intro h
  obtain ⟨r, hr⟩ := h cfgOk oracleNonDict
  rw [show api_trigger_log_configs cfgOk oracleNonDict = Except.error () from rfl] at hr
  exact Except.noConfusion hr

/-- Claim C6 (amended): as long as every fetched record is a JSON object —
which is what the indexer-list endpoint returns — no exception reaches the
endpoint's caller: the result is a structured `{code, message}` pair with
code 1 when the plugin is disabled or host/API key are unconfigured and
code 0 otherwise, and the fetch client itself surfaces failures only as an
empty list. -/
theorem c6_no_exception_amended (cfg : PluginConfig) (oracle : Nat → Outcome)
    (hobj : ∀ r ∈ fetchResult cfg oracle, isObjJ r = true) :
    ∃ result : Nat × String, api_trigger_log_configs cfg oracle = Except.ok result ∧
      (result.1 = 0 ∨ result.1 = 1) ∧
      ((cfg.enabled = false ∨ optFalsy cfg.host = true ∨ optFalsy cfg.api_key = true) →
        result.1 = 1) ∧
      (cfg.enabled = true → optFalsy cfg.host = false → optFalsy cfg.api_key = false →
        result.1 = 0) := by
  cases henb : cfg.enabled with
  | false =>
    refine ⟨(1, "插件未启用，请先在设置中启用。"), ?_, Or.inr rfl, fun _ => rfl, ?_⟩
    · simp [api_trigger_log_configs, henb]
    · intro hcon; exact absurd hcon (by simp)
  | true =>
    cases hfal : (optFalsy cfg.host || optFalsy cfg.api_key) with
    | true =>
      refine ⟨(1, "Jackett Host或API Key未配置，请在插件设置中配置。"), ?_, Or.inr rfl,
        fun _ => rfl, ?_⟩
      · simp [api_trigger_log_configs, henb, hfal]
      · intro _ hh hk; rw [hh, hk] at hfal; exact absurd hfal (by simp)
    | false =>
      have hlog : ∃ ls, log_jackett_indexer_configs cfg oracle = Except.ok ls := by
        unfold log_jackett_indexer_configs
        by_cases hemp : (fetchResult cfg oracle).isEmpty
        · exact ⟨[], by simp [hemp]⟩
        · obtain ⟨ls, hls⟩ := process_records_ok (cfg.host.getD "") (cfg.api_key.getD "")
            (fetchResult cfg oracle) hobj
          exact ⟨ls, by simp [hemp, hls]⟩
      obtain ⟨ls, hls⟩ := hlog
      have hh : optFalsy cfg.host = false ∧ optFalsy cfg.api_key = false := by
        constructor <;> (cases hx : optFalsy cfg.host <;> cases hy : optFalsy cfg.api_key <;>
          simp [hx, hy] at hfal ⊢)
      refine ⟨(0, "已尝试记录Jackett索引器配置到MoviePilot日志，请查看日志获取结果。"), ?_,
        Or.inl rfl, ?_, fun _ _ _ => rfl⟩
      · simp [api_trigger_log_configs, henb, hfal, hls]
      · rintro (hcon | hcon | hcon)
        · exact absurd hcon (by simp)
        · rw [hh.1] at hcon; exact absurd hcon (by simp)
        · rw [hh.2] at hcon; exact absurd hcon (by simp)

/-- Witness for the amended claim C6: a disabled plugin yields a code-1
structured result. -/
theorem c6_no_exception_amended_witness :
    ∃ result : Nat × String,
      api_trigger_log_configs ⟨false, none, none, none⟩ oracleTO = Except.ok result ∧
      (result.1 = 0 ∨ result.1 = 1) ∧
      ((PluginConfig.enabled ⟨false, none, none, none⟩ = false ∨
        optFalsy (PluginConfig.host ⟨false, none, none, none⟩) = true ∨
        optFalsy (PluginConfig.api_key ⟨false, none, none, none⟩) = true) → result.1 = 1) ∧
      (PluginConfig.enabled ⟨false, none, none, none⟩ = true →
        optFalsy (PluginConfig.host ⟨false, none, none, none⟩) = false →
        optFalsy (PluginConfig.api_key ⟨false, none, none, none⟩) = false →
        result.1 = 0) :=
  c6_no_exception_amended ⟨false, none, none, none⟩ oracleTO
    (fun r hr => absurd
      (by rw [show fetchResult ⟨false, none, none, none⟩ oracleTO = ([] : List Json) from rfl] at hr
          exact hr)
      (List.not_mem_nil r))

/-! ### Round trips for the byte-level codecs -/

theorem b64v_b64c (n : Nat) (h : n < 64) : b64v (b64c n) = some n := by
  have hall : ∀ m, m < 64 → b64v (b64c m) = some m := by decide
  exact hall n h

theorem b64c_spec (n : Nat) : b64c n ≠ '=' ∧ b64c n ≠ '|' := by
  by_cases h : n < 64
  · have hall : ∀ m, m < 64 → b64c m ≠ '=' ∧ b64c m ≠ '|' := by decide
    exact hall n h
  · have hq : b64c n = '?' := by
      unfold b64c
      apply List.getD_eq_default
      have hlen : b64Alphabet.length = 64 := rfl
      omega
    rw [hq]
    exact ⟨by decide, by decide⟩

theorem b64Dec_b64Enc : ∀ (bs : List Nat), (∀ b ∈ bs, b < 256) →
    b64Dec (b64Enc bs) = some bs := by
  intro bs
  induction bs using b64Enc.induct with
  | case1 => intro _; rfl
  | case2 a =>
    intro h
    have ha : a < 256 := h a (by simp)
    show b64Dec (b64c (a / 4) :: b64c (a % 4 * 16) :: '=' :: '=' :: []) = some [a]
    rw [b64Dec, b64v_b64c _ (by omega), b64v_b64c _ (by omega)]
    simp only [Option.some_bind, and_self, if_true]
    have e : a / 4 * 4 + a % 4 * 16 / 16 = a := by omega
    rw [e]
  | case3 a b =>
    intro h
    have ha : a < 256 := h a (by simp)
    have hb : b < 256 := h b (by simp)
    show b64Dec (b64c (a / 4) :: b64c (a % 4 * 16 + b / 16) :: b64c (b % 16 * 4) :: '=' :: [])
        = some [a, b]
    rw [b64Dec, b64v_b64c _ (by omega), b64v_b64c _ (by omega)]
    simp only [Option.some_bind]
    rw [if_neg (b64c_spec _).1, b64v_b64c _ (by omega)]
    simp only [Option.some_bind, if_true]
    have e1 : a / 4 * 4 + (a % 4 * 16 + b / 16) / 16 = a := by omega
    have e2 : (a % 4 * 16 + b / 16) % 16 * 16 + b % 16 * 4 / 4 = b := by omega
    rw [e1, e2]
  | case4 a b d rest ih =>
    intro h
    have ha : a < 256 := h a (by simp)
    have hb : b < 256 := h b (by simp)
    have hd : d < 256 := h d (by simp)
    have hrest := ih (fun x hx => h x (by simp [hx]))
    show b64Dec (b64c (a / 4) :: b64c (a % 4 * 16 + b / 16)
        :: b64c (b % 16 * 4 + d / 64) :: b64c (d % 64) :: b64Enc rest) = some (a :: b :: d :: rest)
    rw [b64Dec, b64v_b64c _ (by omega), b64v_b64c _ (by omega)]
    simp only [Option.some_bind]
    rw [if_neg (b64c_spec _).1, b64v_b64c _ (by omega)]
    simp only [Option.some_bind]
    rw [if_neg (b64c_spec _).1, b64v_b64c _ (by omega)]
    simp only [Option.some_bind]
    rw [hrest]
    simp only [Option.map_some']
    have e1 : a / 4 * 4 + (a % 4 * 16 + b / 16) / 16 = a := by omega
    have e2 : (a % 4 * 16 + b / 16) % 16 * 16 + (b % 16 * 4 + d / 64) / 4 = b := by omega
    have e3 : (b % 16 * 4 + d / 64) % 4 * 64 + d % 64 = d := by omega
    rw [e1, e2, e3]

theorem b64Enc_no_pipe : ∀ (bs : List Nat) (c : Char), c ∈ b64Enc bs → c ≠ '|' := by
  intro bs
  induction bs using b64Enc.induct with
  | case1 =>
    intro c hc
    exact absurd hc (by simp [b64Enc])
  | case2 a =>
    intro c hc
    simp only [b64Enc, List.mem_cons, List.not_mem_nil, or_false] at hc
    rcases hc with rfl | rfl | rfl | rfl
    · exact (b64c_spec _).2
    · exact (b64c_spec _).2
    · decide
    · decide
  | case3 a b =>
    intro c hc
    simp only [b64Enc, List.mem_cons, List.not_mem_nil, or_false] at hc
    rcases hc with rfl | rfl | rfl | rfl
    · exact (b64c_spec _).2
    · exact (b64c_spec _).2
    · exact (b64c_spec _).2
    · decide
  | case4 a b d rest ih =>
    intro c hc
    simp only [b64Enc, List.mem_cons] at hc
    rcases hc with rfl | rfl | rfl | rfl | hc
    · exact (b64c_spec _).2
    · exact (b64c_spec _).2
    · exact (b64c_spec _).2
    · exact (b64c_spec _).2
    · exact ih c hc

theorem char_toNat_lt (c : Char) : c.toNat < 0x110000 := by
  have h := c.valid
  simp only [UInt32.isValidChar, Nat.isValidChar] at h
  rcases h with h | h
  · exact Nat.lt_trans h (by norm_num)
  · exact h.2

theorem utf8EncChar_lt256 (c : Char) : ∀ b ∈ utf8EncChar c, b < 256 := by
  have h := char_toNat_lt c
  unfold utf8EncChar
  split_ifs with h1 h2 h3 <;> intro b hb <;> simp only [List.mem_cons, List.mem_singleton,
    List.not_mem_nil, or_false] at hb
  · omega
  · rcases hb with rfl | rfl <;> omega
  · rcases hb with rfl | rfl | rfl <;> omega
  · rcases hb with rfl | rfl | rfl | rfl <;> omega

theorem utf8Dec_encChar (c : Char) (rest : List Nat) :
    utf8Dec (utf8EncChar c ++ rest) = (utf8Dec rest).map (c :: ·) := by
  have hv := char_toNat_lt c
  by_cases h1 : c.toNat < 0x80
  · have henc : utf8EncChar c = [c.toNat] := by unfold utf8EncChar; rw [if_pos h1]
    rw [henc, List.cons_append, List.nil_append]
    conv_lhs => rw [utf8Dec.eq_def]
    simp only []
    rw [if_pos h1, Char.ofNat_toNat]
  · by_cases h2 : c.toNat < 0x800
    · have henc : utf8EncChar c = [0xC0 + c.toNat / 64, 0x80 + c.toNat % 64] := by
        unfold utf8EncChar; rw [if_neg h1, if_pos h2]
      have e : (0xC0 + c.toNat / 64 - 0xC0) * 64 + (0x80 + c.toNat % 64 - 0x80) = c.toNat := by
        omega
      rw [henc, List.cons_append, List.cons_append, List.nil_append]
      conv_lhs => rw [utf8Dec.eq_def]
      simp only []
      rw [if_neg (by omega : ¬ (0xC0 + c.toNat / 64 < 0x80)),
        if_pos (by omega : 0xC0 ≤ 0xC0 + c.toNat / 64 ∧ 0xC0 + c.toNat / 64 < 0xE0)]
      rw [utf8Dec2,
        if_pos (by omega : 0x80 ≤ 0x80 + c.toNat % 64 ∧ 0x80 + c.toNat % 64 < 0xC0),
        e, Char.ofNat_toNat]
    · by_cases h3 : c.toNat < 0x10000
      · have henc : utf8EncChar c
            = [0xE0 + c.toNat / 4096, 0x80 + c.toNat / 64 % 64, 0x80 + c.toNat % 64] := by
          unfold utf8EncChar; rw [if_neg h1, if_neg h2, if_pos h3]
        have e : ((0xE0 + c.toNat / 4096 - 0xE0) * 64 + (0x80 + c.toNat / 64 % 64 - 0x80)) * 64
            + (0x80 + c.toNat % 64 - 0x80) = c.toNat := by omega
        rw [henc, List.cons_append, List.cons_append, List.cons_append, List.nil_append]
        conv_lhs => rw [utf8Dec.eq_def]
        simp only []
        rw [if_neg (by omega : ¬ (0xE0 + c.toNat / 4096 < 0x80)),
          if_neg (by omega : ¬ (0xC0 ≤ 0xE0 + c.toNat / 4096 ∧ 0xE0 + c.toNat / 4096 < 0xE0)),
          if_pos (by omega : 0xE0 ≤ 0xE0 + c.toNat / 4096 ∧ 0xE0 + c.toNat / 4096 < 0xF0)]
        rw [utf8Dec3,
          if_pos (by omega : (0x80 ≤ 0x80 + c.toNat / 64 % 64 ∧ 0x80 + c.toNat / 64 % 64 < 0xC0)
            ∧ (0x80 ≤ 0x80 + c.toNat % 64 ∧ 0x80 + c.toNat % 64 < 0xC0)),
          e, Char.ofNat_toNat]
      · have henc : utf8EncChar c
            = [0xF0 + c.toNat / 262144, 0x80 + c.toNat / 4096 % 64, 0x80 + c.toNat / 64 % 64,
               0x80 + c.toNat % 64] := by
          unfold utf8EncChar; rw [if_neg h1, if_neg h2, if_neg h3]
        have e : (((0xF0 + c.toNat / 262144 - 0xF0) * 64 + (0x80 + c.toNat / 4096 % 64 - 0x80))
            * 64 + (0x80 + c.toNat / 64 % 64 - 0x80)) * 64 + (0x80 + c.toNat % 64 - 0x80)
            = c.toNat := by omega
        rw [henc, List.cons_append, List.cons_append, List.cons_append, List.cons_append,
          List.nil_append]
        conv_lhs => rw [utf8Dec.eq_def]
        simp only []
        rw [if_neg (by omega : ¬ (0xF0 + c.toNat / 262144 < 0x80)),
          if_neg (by omega : ¬ (0xC0 ≤ 0xF0 + c.toNat / 262144
            ∧ 0xF0 + c.toNat / 262144 < 0xE0)),
          if_neg (by omega : ¬ (0xE0 ≤ 0xF0 + c.toNat / 262144
            ∧ 0xF0 + c.toNat / 262144 < 0xF0)),
          if_pos (by omega : 0xF0 ≤ 0xF0 + c.toNat / 262144 ∧ 0xF0 + c.toNat / 262144 < 0xF8)]
        rw [utf8Dec4,
          if_pos (by omega : (0x80 ≤ 0x80 + c.toNat / 4096 % 64
              ∧ 0x80 + c.toNat / 4096 % 64 < 0xC0)
            ∧ (0x80 ≤ 0x80 + c.toNat / 64 % 64 ∧ 0x80 + c.toNat / 64 % 64 < 0xC0)
            ∧ (0x80 ≤ 0x80 + c.toNat % 64 ∧ 0x80 + c.toNat % 64 < 0xC0)),
          e, Char.ofNat_toNat]

theorem utf8Dec_flatten : ∀ (cs : List Char), utf8Dec ((cs.map utf8EncChar).flatten) = some cs
  | [] => rfl
  | c :: cs => by
    rw [List.map_cons, List.flatten_cons, utf8Dec_encChar, utf8Dec_flatten cs]
    rfl

theorem utf8Dec_utf8Enc (s : String) : utf8Dec (utf8Enc s) = some s.data :=
  utf8Dec_flatten s.data

theorem utf8Enc_lt256 (s : String) : ∀ b ∈ utf8Enc s, b < 256 := by
  intro b hb
  simp only [utf8Enc, List.mem_flatten, List.mem_map] at hb
  obtain ⟨l, ⟨c, _, rfl⟩, hbl⟩ := hb
  exact utf8EncChar_lt256 c b hbl

/-! ### Digit runs and escaped strings invert their serialization -/

theorem digitc_lt10 (d : Nat) (h : d < 10) :
    isDigitc (digitc d) = true ∧ digitVal (digitc d) = d := by
  have hall : ∀ m, m < 10 → isDigitc (digitc m) = true ∧ digitVal (digitc m) = m := by decide
  exact hall d h

theorem natChars_digit (n : Nat) : ∀ c ∈ natChars n, isDigitc c = true := by
  intro c hc
  unfold natChars at hc
  by_cases h : n = 0
  · rw [if_pos h] at hc
    simp only [List.mem_singleton] at hc
    subst hc; decide
  · rw [if_neg h] at hc
    simp only [List.mem_reverse, List.mem_map] at hc
    obtain ⟨d, hd, rfl⟩ := hc
    exact (digitc_lt10 d (Nat.digits_lt_base (by norm_num) hd)).1

theorem natChars_ne_nil (n : Nat) : natChars n ≠ [] := by
  unfold natChars
  by_cases h : n = 0
  · rw [if_pos h]; simp
  · rw [if_neg h]
    intro hcon
    rw [List.reverse_eq_nil_iff, List.map_eq_nil_iff] at hcon
    exact h (Nat.digits_eq_nil_iff_eq_zero.mp hcon)

theorem foldl_digitc_rev : ∀ (L : List Nat), (∀ d ∈ L, d < 10) → ∀ (a : Nat),
    L.reverse.foldl (fun x d => x * 10 + digitVal (digitc d)) a
      = a * 10 ^ L.length + Nat.ofDigits 10 L := by
  intro L
  induction L with
  | nil => intro _ a; simp [Nat.ofDigits]
  | cons d L ih =>
    intro hL a
    rw [List.reverse_cons, List.foldl_append,
        ih (fun x hx => hL x (by simp [hx])) a]
    simp only [List.foldl_cons, List.foldl_nil]
    rw [(digitc_lt10 d (hL d (by simp))).2, Nat.ofDigits_cons, List.length_cons, pow_succ]
    ring

theorem digitsVal_natChars (n : Nat) : digitsVal (natChars n) = n := by
  unfold digitsVal natChars
  by_cases h : n = 0
  · rw [if_pos h]; subst h; decide
  · rw [if_neg h, ← List.map_reverse, List.foldl_map,
        foldl_digitc_rev _ (fun d hd => Nat.digits_lt_base (by norm_num) hd) 0,
        Nat.ofDigits_digits]
    omega

/-- Whether a character list does not start with a decimal digit. -/
def noDigitHead : List Char → Bool
  | [] => true
  | c :: _ => !isDigitc c

theorem digitRun_split : ∀ (ds rest : List Char), (∀ c ∈ ds, isDigitc c = true) →
    noDigitHead rest = true →
    (ds ++ rest).takeWhile isDigitc = ds ∧ (ds ++ rest).dropWhile isDigitc = rest := by
  intro ds
  induction ds with
  | nil =>
    intro rest _ hrest
    simp only [List.nil_append]
    cases rest with
    | nil => exact ⟨rfl, rfl⟩
    | cons c t =>
      have hc : isDigitc c = false := by
        simpa [noDigitHead] using hrest
      exact ⟨by simp [List.takeWhile_cons, hc], by simp [List.dropWhile_cons, hc]⟩
  | cons c ds ih =>
    intro rest hds hrest
    have hc := hds c (by simp)
    obtain ⟨h1, h2⟩ := ih rest (fun x hx => hds x (by simp [hx])) hrest
    exact ⟨by simp [List.takeWhile_cons, hc, h1], by simp [List.dropWhile_cons, hc, h2]⟩

theorem hexv_hexc (v : Nat) (h : v < 16) : hexv (hexc v) = some v := by
  have hall : ∀ m, m < 16 → hexv (hexc m) = some m := by decide
  exact hall v h

theorem parseQStringAux_escChar (c : Char) (acc r : List Char) :
    parseQStringAux acc (escChar c ++ r) = parseQStringAux (c :: acc) r := by
  by_cases h1 : c = '"'
  · subst h1; rfl
  by_cases h2 : c = '\\'
  · subst h2; rfl
  by_cases h3 : c = '\x08'
  · subst h3; rfl
  by_cases h4 : c = '\x0c'
  · subst h4; rfl
  by_cases h5 : c = '\n'
  · subst h5; rfl
  by_cases h6 : c = '\r'
  · subst h6; rfl
  by_cases h7 : c = '\t'
  · subst h7; rfl
  by_cases h8 : c.toNat < 0x20
  · rw [show escChar c
        = ['\\', 'u', '0', '0', hexc (c.toNat / 16), hexc (c.toNat % 16)] from by
      unfold escChar; rw [if_neg h1, if_neg h2, if_neg h3, if_neg h4, if_neg h5, if_neg h6,
        if_neg h7, if_pos h8]]
    have h0 : hexv '0' = some 0 := rfl
    have hhi : hexv (hexc (c.toNat / 16)) = some (c.toNat / 16) := hexv_hexc _ (by omega)
    have hlo : hexv (hexc (c.toNat % 16)) = some (c.toNat % 16) := hexv_hexc _ (by omega)
    show parseQStringAux acc
        ('\\' :: 'u' :: '0' :: '0' :: hexc (c.toNat / 16) :: hexc (c.toNat % 16) :: r) = _
    rw [parseQStringAux, h0, hhi, hlo]
    show parseQStringAux
        (Char.ofNat (((0 * 16 + 0) * 16 + c.toNat / 16) * 16 + c.toNat % 16) :: acc) r
      = parseQStringAux (c :: acc) r
    have e : ((0 * 16 + 0) * 16 + c.toNat / 16) * 16 + c.toNat % 16 = c.toNat := by omega
    rw [e, Char.ofNat_toNat]
  · rw [show escChar c = [c] from by
      unfold escChar; rw [if_neg h1, if_neg h2, if_neg h3, if_neg h4, if_neg h5, if_neg h6,
        if_neg h7, if_neg h8]]
    show parseQStringAux acc (c :: r) = _
    conv_lhs => rw [parseQStringAux.eq_def]
    simp [h1, h2]

theorem parseQStringAux_escBody : ∀ (cs : List Char) (acc rest : List Char),
    parseQStringAux acc ((cs.map escChar).flatten ++ '"' :: rest)
      = some (⟨acc.reverse ++ cs⟩, rest)
  | [], acc, rest => by
    show parseQStringAux acc ('"' :: rest) = some (⟨acc.reverse ++ []⟩, rest)
    rw [List.append_nil]
    rfl
  | c :: cs, acc, rest => by
    rw [List.map_cons, List.flatten_cons, List.append_assoc, parseQStringAux_escChar,
        parseQStringAux_escBody cs (c :: acc) rest]
    simp

theorem parseQString_ser (s : String) (rest : List Char) :
    parseQString (escString s ++ '"' :: rest) = some (s, rest) := by
  unfold parseQString escString
  rw [parseQStringAux_escBody]
  rfl

/-! ### The parser inverts the serializer -/

theorem dropWs_cons_nonws (c : Char) (t : List Char) (h : isWsc c = false) :
    dropWs (c :: t) = c :: t := by
  simp [dropWs, List.dropWhile_cons, h]

theorem dropWs_space (cs : List Char) : dropWs (' ' :: cs) = dropWs cs := by
  simp [dropWs, List.dropWhile_cons, isWsc]

theorem isDigitc_props (c : Char) (h : isDigitc c = true) :
    isWsc c = false ∧ c ≠ ']' ∧ c ≠ '\x7d' ∧ c ≠ 't' ∧ c ≠ 'f' ∧ c ≠ '"' ∧ c ≠ '['
      ∧ c ≠ '\x7b' := by
  have hb : 48 ≤ c.toNat ∧ c.toNat ≤ 57 := by simpa [isDigitc] using h
  have hne : ∀ d : Char, d.toNat < 48 ∨ 57 < d.toNat → c ≠ d := by
    intro d hd hcon
    subst hcon
    omega
  refine ⟨?_, hne ']' (by decide), hne '\x7d' (by decide), hne 't' (by decide),
    hne 'f' (by decide), hne '"' (by decide), hne '[' (by decide), hne '\x7b' (by decide)⟩
  simp only [isWsc, Bool.or_eq_false_iff, beq_eq_false_iff_ne]
  exact ⟨⟨⟨hne ' ' (by decide), hne '\t' (by decide)⟩, hne '\n' (by decide)⟩,
    hne '\r' (by decide)⟩

theorem serJ_head (j : Json) : ∃ c t, serJ j = c :: t ∧ isWsc c = false ∧ c ≠ ']'
    ∧ c ≠ '\x7d' := by
  have pack : ∀ (c : Char) (t : List Char),
      isWsc c = false ∧ c ≠ ']' ∧ c ≠ '\x7d' →
      ∃ c' t', c :: t = c' :: t' ∧ isWsc c' = false ∧ c' ≠ ']' ∧ c' ≠ '\x7d' :=
    fun c t h => ⟨c, t, rfl, h.1, h.2.1, h.2.2⟩
  cases j with
  | str s => exact pack _ _ (by decide)
  | bool b => cases b <;> exact pack _ _ (by decide)
  | arr items => cases items <;> exact pack _ _ (by decide)
  | obj fields => cases fields <;> exact pack _ _ (by decide)
  | num n =>
    cases hnc : natChars n with
    | nil => exact absurd hnc (natChars_ne_nil n)
    | cons c t =>
      have hd : isDigitc c = true := natChars_digit n c (by rw [hnc]; simp)
      obtain ⟨hw, hb1, hb2, -, -, -, -, -⟩ := isDigitc_props c hd
      refine ⟨c, t, ?_, hw, hb1, hb2⟩
      rw [show serJ (.num n) = natChars n from rfl, hnc]

theorem serJ_length_pos (j : Json) : 0 < (serJ j).length := by
  obtain ⟨c, t, hser, -, -, -⟩ := serJ_head j
  rw [hser]
  simp

theorem dropWs_serJ (j : Json) (x : List Char) : dropWs (serJ j ++ x) = serJ j ++ x := by
  obtain ⟨c, t, hser, hw, -, -⟩ := serJ_head j
  rw [hser, List.cons_append]
  exact dropWs_cons_nonws _ _ hw

theorem parseVal_true (f : Nat) (r : List Char) :
    parseVal (f + 1) ('t' :: 'r' :: 'u' :: 'e' :: r) = some (Json.bool true, r) := by
  conv_lhs => rw [parseVal.eq_def]
  simp only []
  rw [dropWs_cons_nonws 't' _ (by decide)]
  rfl

theorem parseVal_false (f : Nat) (r : List Char) :
    parseVal (f + 1) ('f' :: 'a' :: 'l' :: 's' :: 'e' :: r) = some (Json.bool false, r) := by
  conv_lhs => rw [parseVal.eq_def]
  simp only []
  rw [dropWs_cons_nonws 'f' _ (by decide)]
  rfl

theorem parseVal_quote (f : Nat) (r : List Char) :
    parseVal (f + 1) ('"' :: r) = (parseQString r).map (fun p => (Json.str p.1, p.2)) := by
  conv_lhs => rw [parseVal.eq_def]
  simp only []
  rw [dropWs_cons_nonws '"' _ (by decide)]
  rfl

theorem parseVal_lbrack (f : Nat) (r : List Char) :
    parseVal (f + 1) ('[' :: r)
      = (if (dropWs r).head? = some ']' then some (Json.arr [], (dropWs r).tail)
         else (parseItems f (dropWs r)).map (fun p => (Json.arr p.1, p.2))) := by
  conv_lhs => rw [parseVal.eq_def]
  simp only []
  rw [dropWs_cons_nonws '[' _ (by decide)]
  rfl

theorem parseVal_lbrace (f : Nat) (r : List Char) :
    parseVal (f + 1) ('\x7b' :: r)
      = (if (dropWs r).head? = some '\x7d' then some (Json.obj [], (dropWs r).tail)
         else (parseFields f (dropWs r)).map (fun p => (Json.obj p.1, p.2))) := by
  conv_lhs => rw [parseVal.eq_def]
  simp only []
  rw [dropWs_cons_nonws '\x7b' _ (by decide)]
  rfl

theorem parseVal_digit (f : Nat) (c : Char) (t : List Char) (hd : isDigitc c = true) :
    parseVal (f + 1) (c :: t)
      = some (Json.num (digitsVal ((c :: t).takeWhile isDigitc)),
          (c :: t).dropWhile isDigitc) := by
  obtain ⟨hw, -, -, ht, hf, hq, hbk, hbc⟩ := isDigitc_props c hd
  conv_lhs => rw [parseVal.eq_def]
  simp only []
  rw [dropWs_cons_nonws c _ hw]
  simp [ht, hf, hq, hbk, hbc, hd]

theorem parseVal_space (f : Nat) (cs : List Char) :
    parseVal f (' ' :: cs) = parseVal f cs := by
  cases f with
  | zero => rfl
  | succ f =>
    conv_lhs => rw [parseVal.eq_def]
    conv_rhs => rw [parseVal.eq_def]
    simp only []
    rw [dropWs_space]

theorem parseItems_space (f : Nat) (cs : List Char) :
    parseItems f (' ' :: cs) = parseItems f cs := by
  cases f with
  | zero => rfl
  | succ f =>
    conv_lhs => rw [parseItems.eq_def]
    conv_rhs => rw [parseItems.eq_def]
    simp only []
    rw [parseVal_space]

theorem parseFields_space (f : Nat) (cs : List Char) :
    parseFields f (' ' :: cs) = parseFields f cs := by
  cases f with
  | zero => rfl
  | succ f =>
    conv_lhs => rw [parseFields.eq_def]
    conv_rhs => rw [parseFields.eq_def]
    simp only []
    rw [dropWs_space]

theorem parseItems_eval (f : Nat) (cs : List Char) :
    parseItems (f + 1) cs
      = (match parseVal f cs with
         | none => none
         | some (v, r) =>
           if (dropWs r).head? = some ',' then
             (parseItems f (dropWs r).tail).map (fun p => (v :: p.1, p.2))
           else if (dropWs r).head? = some ']' then some ([v], (dropWs r).tail)
           else none) := by
  conv_lhs => rw [parseItems.eq_def]

theorem parseFields_eval (f : Nat) (cs : List Char) :
    parseFields (f + 1) cs
      = (if (dropWs cs).head? = some '"' then
           match parseQString (dropWs cs).tail with
           | none => none
           | some (k, r1) =>
             if (dropWs r1).head? = some ':' then
               match parseVal f (dropWs r1).tail with
               | none => none
               | some (v, r3) =>
                 if (dropWs r3).head? = some ',' then
                   (parseFields f (dropWs r3).tail).map (fun p => ((k, v) :: p.1, p.2))
                 else if (dropWs r3).head? = some '\x7d' then some ([(k, v)], (dropWs r3).tail)
                 else none
             else none
         else none) := by
  conv_lhs => rw [parseFields.eq_def]

mutual

theorem rtVal : ∀ (j : Json) (fuel : Nat) (rest : List Char),
    (serJ j).length < fuel → noDigitHead rest = true →
    parseVal fuel (serJ j ++ rest) = some (j, rest)
  | .str s, fuel, rest, hf, _ => by
    cases fuel with
    | zero => exact absurd hf (by omega)
    | succ f =>
      rw [show serJ (.str s) ++ rest = '"' :: (escString s ++ '"' :: rest) from by
          simp [serJ, serStr]]
      rw [parseVal_quote, parseQString_ser]
      rfl
  | .num n, fuel, rest, hf, hr => by
    cases fuel with
    | zero => exact absurd hf (by omega)
    | succ f =>
      cases hnc : natChars n with
      | nil => exact absurd hnc (natChars_ne_nil n)
      | cons c t =>
        have hd : isDigitc c = true := natChars_digit n c (by rw [hnc]; simp)
        rw [show serJ (.num n) ++ rest = c :: (t ++ rest) from by
            rw [show serJ (.num n) = natChars n from rfl, hnc, List.cons_append]]
        rw [parseVal_digit f c (t ++ rest) hd]
        have hsplit := digitRun_split (c :: t) rest
          (by rw [← hnc]; exact natChars_digit n) hr
        rw [show c :: (t ++ rest) = (c :: t) ++ rest from by rw [List.cons_append]]
        rw [hsplit.1, hsplit.2, ← hnc, digitsVal_natChars]
  | .bool true, fuel, rest, hf, _ => by
    cases fuel with
    | zero => exact absurd hf (by omega)
    | succ f =>
      rw [show serJ (.bool true) ++ rest = 't' :: 'r' :: 'u' :: 'e' :: rest from rfl]
      exact parseVal_true f rest
  | .bool false, fuel, rest, hf, _ => by
    cases fuel with
    | zero => exact absurd hf (by omega)
    | succ f =>
      rw [show serJ (.bool false) ++ rest = 'f' :: 'a' :: 'l' :: 's' :: 'e' :: rest from rfl]
      exact parseVal_false f rest
  | .arr [], fuel, rest, hf, _ => by
    cases fuel with
    | zero => exact absurd hf (by omega)
    | succ f =>
      rw [show serJ (.arr []) ++ rest = '[' :: (']' :: rest) from rfl, parseVal_lbrack,
        dropWs_cons_nonws ']' _ (by decide)]
      simp only [List.head?_cons, List.tail_cons]
      simp
  | .arr (x :: xs), fuel, rest, hf, _ => by
    cases fuel with
    | zero => exact absurd hf (by omega)
    | succ f =>
      have harr : serJ (.arr (x :: xs)) ++ rest
          = '[' :: (serJ x ++ (serMoreItems xs ++ ']' :: rest)) := by
        simp [serJ, List.append_assoc]
      obtain ⟨c, t, hser, hw, hb1, -⟩ := serJ_head x
      have hdw : dropWs (serJ x ++ (serMoreItems xs ++ ']' :: rest))
          = serJ x ++ (serMoreItems xs ++ ']' :: rest) := dropWs_serJ x _
      have hhead : (serJ x ++ (serMoreItems xs ++ ']' :: rest)).head? = some c := by
        rw [hser, List.cons_append]; rfl
      have hfuel : (serJ x).length + (serMoreItems xs).length + 1 < f := by
        have : (serJ (Json.arr (x :: xs))).length
            = (serJ x).length + (serMoreItems xs).length + 2 := by
          simp [serJ]
          omega
        omega
      rw [harr, parseVal_lbrack, hdw, hhead,
        if_neg (by simp [Option.some.injEq]; exact hb1),
        rtItems x xs f rest hfuel]
      rfl
  | .obj [], fuel, rest, hf, _ => by
    cases fuel with
    | zero => exact absurd hf (by omega)
    | succ f =>
      rw [show serJ (.obj []) ++ rest = '\x7b' :: ('\x7d' :: rest) from rfl, parseVal_lbrace,
        dropWs_cons_nonws '\x7d' _ (by decide)]
      simp only [List.head?_cons, List.tail_cons]
      simp
  | .obj (fld :: fs), fuel, rest, hf, _ => by
    cases fuel with
    | zero => exact absurd hf (by omega)
    | succ f =>
      have hobj : serJ (.obj (fld :: fs)) ++ rest
          = '\x7b' :: (serField fld ++ (serMoreFields fs ++ '\x7d' :: rest)) := by
        simp [serJ, List.append_assoc]
      have hsf : serField fld ++ (serMoreFields fs ++ '\x7d' :: rest)
          = '"' :: ((escString fld.1 ++ ['"'])
            ++ (':' :: ' ' :: serJ fld.2 ++ (serMoreFields fs ++ '\x7d' :: rest))) := by
        obtain ⟨k, v⟩ := fld
        simp [serField, serStr, List.append_assoc]
      have hdw : dropWs (serField fld ++ (serMoreFields fs ++ '\x7d' :: rest))
          = serField fld ++ (serMoreFields fs ++ '\x7d' :: rest) := by
        rw [hsf]
        exact dropWs_cons_nonws _ _ (by decide)
      have hhead : (serField fld ++ (serMoreFields fs ++ '\x7d' :: rest)).head? = some '"' := by
        rw [hsf]; rfl
      have hfuel : (serField fld).length + (serMoreFields fs).length + 1 < f := by
        have : (serJ (Json.obj (fld :: fs))).length
            = (serField fld).length + (serMoreFields fs).length + 2 := by
          simp [serJ]
          omega
        omega
      rw [hobj, parseVal_lbrace, hdw, hhead, if_neg (by simp),
        rtFields fld fs f rest hfuel]
      rfl
  termination_by j _ _ _ _ => sizeOf j

theorem rtItems : ∀ (x : Json) (xs : List Json) (fuel : Nat) (rest : List Char),
    (serJ x).length + (serMoreItems xs).length + 1 < fuel →
    parseItems fuel (serJ x ++ (serMoreItems xs ++ ']' :: rest)) = some (x :: xs, rest)
  | x, [], fuel, rest, hf => by
    cases fuel with
    | zero => exact absurd hf (by omega)
    | succ f =>
      have hx := rtVal x f (']' :: rest) (by
        simp only [serMoreItems, List.length_nil] at hf; omega) rfl
      rw [show serMoreItems ([] : List Json) ++ ']' :: rest = ']' :: rest from rfl]
      rw [parseItems_eval, hx]
      simp only []
      rw [dropWs_cons_nonws ']' _ (by decide)]
      simp only [List.head?_cons, List.tail_cons, reduceIte]
      simp
  | x, y :: ys, fuel, rest, hf => by
    cases fuel with
    | zero => exact absurd hf (by omega)
    | succ f =>
      have hmore : serMoreItems (y :: ys) ++ ']' :: rest
          = ',' :: ' ' :: (serJ y ++ (serMoreItems ys ++ ']' :: rest)) := by
        simp [serMoreItems, List.append_assoc]
      simp only [serMoreItems, List.length_cons, List.length_append] at hf
      have hx := rtVal x f (',' :: ' ' :: (serJ y ++ (serMoreItems ys ++ ']' :: rest)))
        (by omega) rfl
      have hy := rtItems y ys f rest (by omega)
      rw [hmore, parseItems_eval, hx]
      simp only []
      rw [dropWs_cons_nonws ',' _ (by decide)]
      simp only [List.head?_cons, List.tail_cons, reduceIte]
      rw [parseItems_space, hy]
      rfl
  termination_by x xs _ _ _ => 1 + sizeOf x + sizeOf xs

theorem rtFields : ∀ (fld : String × Json) (fs : List (String × Json)) (fuel : Nat)
    (rest : List Char),
    (serField fld).length + (serMoreFields fs).length + 1 < fuel →
    parseFields fuel (serField fld ++ (serMoreFields fs ++ '\x7d' :: rest))
      = some (fld :: fs, rest)
  | (k, v), [], fuel, rest, hf => by
    cases fuel with
    | zero => exact absurd hf (by omega)
    | succ f =>
      have hsf : serField (k, v) ++ (serMoreFields [] ++ '\x7d' :: rest)
          = '"' :: (escString k ++ '"' :: (':' :: ' ' :: (serJ v ++ '\x7d' :: rest))) := by
        simp [serField, serStr, serMoreFields, List.append_assoc]
      have hlen : (serJ v).length < f := by
        simp only [serField, serStr, serMoreFields, List.length_append, List.length_cons,
          List.length_nil] at hf
        omega
      have hv := rtVal v f ('\x7d' :: rest) hlen rfl
      rw [hsf, parseFields_eval, dropWs_cons_nonws '"' _ (by decide)]
      simp only [List.head?_cons, List.tail_cons, reduceIte]
      rw [parseQString_ser]
      simp only []
      rw [dropWs_cons_nonws ':' _ (by decide)]
      simp only [List.head?_cons, List.tail_cons, reduceIte]
      rw [parseVal_space, hv]
      simp only []
      rw [dropWs_cons_nonws '\x7d' _ (by decide)]
      simp only [List.head?_cons, List.tail_cons, reduceIte]
      simp
  | (k, v), fld2 :: fs, fuel, rest, hf => by
    cases fuel with
    | zero => exact absurd hf (by omega)
    | succ f =>
      have hsf : serField (k, v) ++ (serMoreFields (fld2 :: fs) ++ '\x7d' :: rest)
          = '"' :: (escString k ++ '"' :: (':' :: ' ' :: (serJ v
            ++ ',' :: ' ' :: (serField fld2 ++ (serMoreFields fs ++ '\x7d' :: rest))))) := by
        simp [serField, serStr, serMoreFields, List.append_assoc]
      simp only [serField, serStr, serMoreFields, List.length_append, List.length_cons] at hf
      have hv := rtVal v f
        (',' :: ' ' :: (serField fld2 ++ (serMoreFields fs ++ '\x7d' :: rest)))
        (by omega) rfl
      have htail := rtFields fld2 fs f rest (by omega)
      rw [hsf, parseFields_eval, dropWs_cons_nonws '"' _ (by decide)]
      simp only [List.head?_cons, List.tail_cons, reduceIte]
      rw [parseQString_ser]
      simp only []
      rw [dropWs_cons_nonws ':' _ (by decide)]
      simp only [List.head?_cons, List.tail_cons, reduceIte]
      rw [parseVal_space, hv]
      simp only []
      rw [dropWs_cons_nonws ',' _ (by decide)]
      simp only [List.head?_cons, List.tail_cons, reduceIte]
      rw [parseFields_space, htail]
      rfl
  termination_by fld fs _ _ _ => 1 + sizeOf fld + sizeOf fs

end

/-- Parsing the dump of any JSON value reproduces it exactly. -/
theorem jsonParse_jsonDumps (j : Json) : jsonParse (jsonDumps j) = some j := by
  unfold jsonParse jsonDumps
  have h := rtVal j ((serJ j).length + 1) [] (by omega) rfl
  rw [List.append_nil] at h
  show (match parseVal ((serJ j).length + 1) (serJ j) with
      | some (j1, r) => if (dropWs r).isEmpty then some j1 else none
      | none => none) = some j
  rw [h]
  rfl

/-! ### Decoding the base64 segment of a config line -/

/-- The segment of a line after its last `|` (the base64 alphabet contains no
`|`, so this recovers exactly the encoded blob of a `ConfigLine`). -/
def afterLastPipe (cs : List Char) : List Char :=
  (cs.reverse.takeWhile (fun c => c != '|')).reverse

theorem takeWhile_append_stop {α : Type} (p : α → Bool) :
    ∀ (as : List α) (x : α) (bs : List α), (∀ c ∈ as, p c = true) → p x = false →
      (as ++ x :: bs).takeWhile p = as
  | [], x, bs, _, hx => by simp [List.takeWhile_cons, hx]
  | a :: as, x, bs, hall, hx => by
    have ha := hall a (by simp)
    rw [List.cons_append, List.takeWhile_cons, ha,
        takeWhile_append_stop p as x bs (fun c hc => hall c (by simp [hc])) hx]
    simp

theorem afterLastPipe_append (xs ys : List Char) (hys : ∀ c ∈ ys, c ≠ '|') :
    afterLastPipe (xs ++ '|' :: ys) = ys := by
  unfold afterLastPipe
  rw [List.reverse_append, List.reverse_cons, List.append_assoc, List.singleton_append,
      takeWhile_append_stop _ _ _ _
        (fun c hc => by
          have := hys c (List.mem_reverse.mp hc)
          simpa using this)
        (by decide),
      List.reverse_reverse]

/-- Decode the post-separator segment of a config line: base64-decode it,
decode the bytes as UTF-8, and parse the result as JSON. -/
def decodeSegment (line : String) : Option Json :=
  match b64Dec (afterLastPipe line.data) with
  | some bytes =>
    match utf8Dec bytes with
    | some cs => jsonParse ⟨cs⟩
    | none => none
  | none => none

theorem decodeSegment_encode (idStr : String) (j : Json) :
    decodeSegment (idStr ++ "|" ++ (⟨b64Enc (utf8Enc (jsonDumps j))⟩ : String)) = some j := by
  unfold decodeSegment
  have hdata : (idStr ++ "|" ++ (⟨b64Enc (utf8Enc (jsonDumps j))⟩ : String)).data
      = idStr.data ++ '|' :: b64Enc (utf8Enc (jsonDumps j)) := by
    rw [String.data_append, String.data_append]
    simp [List.append_assoc]
  rw [hdata, afterLastPipe_append _ _ (fun c hc => b64Enc_no_pipe _ c hc),
      b64Dec_b64Enc _ (utf8Enc_lt256 _)]
  simp only []
  rw [utf8Dec_utf8Enc]
  simp only []
  show jsonParse (jsonDumps j) = some j
  exact jsonParse_jsonDumps j

/-! ### The claims about config lines -/

/-- Claim C9: for every successfully formatted record, base64-decoding the
segment of its config line after the `|` separator, decoding the bytes as
UTF-8 and parsing the result as JSON reproduces exactly the config object
the line was built from. -/
theorem c9_configline_roundtrip (host api_key : String) (rec : List (String × Json))
    (cfgObj : Json) (line : String)
    (_hfmt : format_indexer_for_moviepilot host api_key rec = some cfgObj)
    (hline : config_line cfgObj = some line) :
    decodeSegment line = some cfgObj := by
  unfold config_line at hline
  cases hid : jGet cfgObj "id" with
  | none => rw [hid] at hline; exact absurd hline (by simp)
  | some v =>
    rw [hid] at hline
    simp only [Option.some.injEq] at hline
    rw [← hline]
    exact decodeSegment_encode (pyStr v) cfgObj

/-- The config object built for the end-to-end example record. -/
def exampleConfig : Json := mpIndexerConfig "http://localhost:9117" "ABC123" "1337x" "1337x"

/-- The config line built for the end-to-end example record. -/
def exampleLine : String :=
  "jackett_1337x" ++ "|" ++ (⟨b64Enc (utf8Enc (jsonDumps exampleConfig))⟩ : String)

/-- Witness for claim C9, at the end-to-end example record. -/
theorem c9_configline_roundtrip_witness : decodeSegment exampleLine = some exampleConfig :=
  c9_configline_roundtrip "http://localhost:9117" "ABC123"
    [("id", Json.str "1337x"), ("name", Json.str "1337x")] exampleConfig exampleLine rfl rfl

/-- Claim C7: the formatter derives the internal identifier as `"jackett_"`
followed by the source id lower-cased with hyphens replaced by underscores;
and on the record `{"id": "1337x", "name": "1337x"}` with
host `http://localhost:9117` and API key `ABC123`, the config line starts
with `jackett_1337x|` and its decoded JSON holds
`"apikey": "ABC123"` and the path `/api/v2.0/indexers/1337x/results/torznab`. -/
theorem c7_internal_id_and_example :
    (∀ (host api_key idS nameS : String) (rec : List (String × Json)),
      pyLookup rec "id" = some (Json.str idS) → pyLookup rec "name" = some (Json.str nameS) →
      idS ≠ "" → nameS ≠ "" →
      ∃ cfgObj, format_indexer_for_moviepilot host api_key rec = some cfgObj ∧
        jGet cfgObj "id" = some (Json.str ("jackett_" ++ pyDashToUnderscore (pyLower idS))))
    ∧ ((format_indexer_for_moviepilot "http://localhost:9117" "ABC123"
          [("id", Json.str "1337x"), ("name", Json.str "1337x")]).bind config_line
        = some exampleLine
      ∧ (∃ restS : String, exampleLine = "jackett_1337x|" ++ restS)
      ∧ decodeSegment exampleLine = some exampleConfig
      ∧ ((jGet exampleConfig "search").bind (fun s => jGet s "params")).bind
          (fun p => jGet p "apikey") = some (Json.str "ABC123")
      ∧ (∃ pathObj, ((jGet exampleConfig "search").bind (fun s => jGet s "paths"))
          = some (Json.arr [pathObj])
          ∧ jGet pathObj "path"
            = some (Json.str "/api/v2.0/indexers/1337x/results/torznab"))) := by
  constructor
  · intro host api_key idS nameS rec hid hname hidne hnamene
    refine ⟨mpIndexerConfig host api_key idS nameS, ?_, rfl⟩
    unfold format_indexer_for_moviepilot pyDictGet
    rw [hid, hname]
    simp [pyTruthy, hidne, hnamene, pyStr]
  · refine ⟨rfl, ⟨⟨b64Enc (utf8Enc (jsonDumps exampleConfig))⟩, rfl⟩, ?_, rfl, ?_⟩
    · exact decodeSegment_encode "jackett_1337x" exampleConfig
    · exact ⟨Json.obj [("path", Json.str "/api/v2.0/indexers/1337x/results/torznab"),
        ("method", Json.str "get")], rfl, rfl⟩

/-- Witness for claim C7, instantiating its universal part at
`{"id": "My-Site", "name": "Foo"}`. -/
theorem c7_internal_id_and_example_witness :
    ∃ cfgObj, format_indexer_for_moviepilot "http://localhost:9117" "ABC123"
        [("id", Json.str "My-Site"), ("name", Json.str "Foo")] = some cfgObj ∧
      jGet cfgObj "id" = some (Json.str ("jackett_" ++ pyDashToUnderscore (pyLower "My-Site"))) :=
  c7_internal_id_and_example.1 "http://localhost:9117" "ABC123" "My-Site" "Foo"
    [("id", Json.str "My-Site"), ("name", Json.str "Foo")] rfl rfl (by decide) (by decide)
